import Mathlib

/-!
Shallow embedding of the execution core in `src/vm.c` (a small class-based
scripting VM: tagged values, heap objects on an intrusive list, a mark-and-sweep
collector integrated with allocation, and a bytecode interpreter).

Modelling conventions:
* Heap pointers are modelled as indices (`Nat`) into an append-only store
  `VMState.store`; the intrusive `vm->first` object list is the list of indices
  `VMState.first` (prepending mirrors `initObj`).  `free()` releases memory in C;
  in the model a freed object merely leaves `first` (its store cell is never
  read again by well-formed code).
* The `FLAG_MARKED` bit of each object header is the parallel list
  `VMState.marks`.
* `size_t` quantities (`totalAllocated`, `nextGC`, object sizes) are `Nat`.
  The byte sizes produced by C `sizeof` live in the missing header, so they are
  parameters collected in `Config`, together with `MAX_PINNED`.
* C undefined behaviour (out-of-bounds stack access, bad downcast, dangling
  pointer) is modelled by `Option`/`StepRes.stuck`.
* Host primitives receive the VM state and the index of `args[0]` in the value
  stack and return the new state, mirroring `Primitive(vm, fiber, args)`.
-/

/-- `MAX_SYMBOLS` from the missing header; the spec (§4.B, §6) fixes 256. -/
def MAX_SYMBOLS : Nat := 256

/-- Byte-size constants from the missing `vm.h`/`common.h` headers
(`sizeof` of each struct, `MAX_PINNED`), kept abstract. -/
structure Config where
  szObj : Nat
  szObjClass : Nat
  szObjFn : Nat
  szObjString : Nat
  szObjInstance : Nat
  szCode : Nat
  szValue : Nat
  maxPinned : Nat
deriving DecidableEq, Repr

/-- The tagged `Value` cell (`VAL_FALSE`, `VAL_NULL`, `VAL_NUM`, `VAL_TRUE`,
`VAL_NO_VALUE`, `VAL_OBJ`).  The numeric payload is opaque: no claim computes
with doubles. -/
inductive Value where
  | vfalse
  | vnull
  | num (n : Nat)
  | vtrue
  | novalue
  | obj (o : Nat)
deriving DecidableEq, Repr

def FALSE_VAL : Value := Value.vfalse
def TRUE_VAL : Value := Value.vtrue
def NULL_VAL : Value := Value.vnull
def NO_VALUE : Value := Value.novalue

/-- `OBJ_VAL(obj)` from the missing header: wrap a heap reference. -/
def OBJ_VAL (o : Nat) : Value := Value.obj o

/-- The `.type` tag of a `Value`, in C enum order; `unpinObj` compares these. -/
def valueTag : Value → Nat
  | Value.vfalse => 0
  | Value.vnull => 1
  | Value.num _ => 2
  | Value.vtrue => 3
  | Value.novalue => 4
  | Value.obj _ => 5

/-- `IS_NULL(value)` from the missing header. -/
def IS_NULL (v : Value) : Bool := v = NULL_VAL

/-- `IS_OBJ(value)` from the missing header. -/
def IS_OBJ (v : Value) : Bool :=
  match v with
  | Value.obj _ => true
  | _ => false

/-- The object id carried by a `Value`, if any. -/
def valueObj : Value → Option Nat
  | Value.obj o => some o
  | _ => none

/-- One slot of a class's method table (`METHOD_NONE`, `METHOD_PRIMITIVE`,
`METHOD_BLOCK`).  A primitive is identified by an id resolved through the
host-function environment supplied to the interpreter. -/
inductive Method where
  | none
  | primitive (pid : Nat)
  | block (fn : Nat)
deriving DecidableEq, Repr

/-- The payload of a heap object (`ObjClass`, `ObjFn`, `ObjString`,
`ObjInstance`).  An `ObjString` stores its backing byte buffer including the
trailing NUL; an `ObjFn`'s constants list plays the role of
`constants`/`numConstants`. -/
inductive ObjData where
  | classObj (metaclass : Option Nat) (superclass : Option Nat) (methods : List Method)
  | fn (bytecode : List Nat) (constants : List Value)
  | string (bytes : List Nat)
  | inst (classObj : Nat)
deriving DecidableEq, Repr

/-- A `CallFrame`: function, instruction pointer, base of the frame's window in
the value stack. -/
structure CallFrame where
  fn : Nat
  ip : Nat
  stackStart : Nat
deriving DecidableEq, Repr

/-- The fiber: value stack (index 0 first) and frame stack (head = top frame,
i.e. `frames[numFrames-1]`). -/
structure Fiber where
  stack : List Value
  frames : List CallFrame
deriving DecidableEq, Repr

/-- The VM.  `store`/`marks` model the heap and the MARKED flags; `first` the
intrusive object list; the `*Class` fields are the singleton class pointers
installed by the (out-of-scope) core library, hence `Option`. -/
structure VMState where
  store : List ObjData
  marks : List Bool
  first : List Nat
  globals : List Value
  globalSymbolCount : Nat
  methodNames : List String
  pinned : List Value
  fiber : Fiber
  totalAllocated : Nat
  nextGC : Nat
  objectClass : Option Nat
  boolClass : Option Nat
  nullClass : Option Nat
  numClass : Option Nat
  fnClass : Option Nat
  stringClass : Option Nat
deriving DecidableEq, Repr

/-- The mark-phase edges out of one object (`markObj`'s traversal): a class
marks its metaclass and the function of every `METHOD_BLOCK` slot; a function
marks its constants; strings and instances mark nothing.  The superclass is
intentionally absent, as in the source. -/
def succs : ObjData → List Nat
  | ObjData.classObj metaclass _ methods =>
      (match metaclass with
       | some m => [m]
       | none => []) ++
      methods.filterMap (fun m =>
        match m with
        | Method.block f => some f
        | _ => none)
  | ObjData.fn _ constants => constants.filterMap valueObj
  | ObjData.string _ => []
  | ObjData.inst _ => []

/-- Successors of the object stored at id `o` (empty for a dangling id). -/
def succsAt (st : List ObjData) (o : Nat) : List Nat :=
  match st.get? o with
  | some d => succs d
  | none => []

/-- Test of the MARKED flag (`obj->flags & FLAG_MARKED`). -/
def mAt (marks : List Bool) (o : Nat) : Bool := marks.getD o false

mutual

/-- `markObj`: depth-first marking.  Returns immediately on a re-visit,
otherwise sets MARKED and traverses the object's fields.  The C recursion
terminates because every cycle passes a marked object; the model makes that
explicit with fuel (adequate fuel is supplied by `collectGarbage`). -/
def markObj (st : List ObjData) : Nat → List Bool → Nat → List Bool
  | 0, marks, _ => marks
  | fuel + 1, marks, o =>
    if mAt marks o then marks
    else
      match st.get? o with
      | none => marks
      | some d => markObjs st fuel (marks.set o true) (succs d)
termination_by fuel _ _ => (fuel, 0)

/-- Marking each object of a list in order (the field-traversal loops of
`markObj`). -/
def markObjs (st : List ObjData) (fuel : Nat) : List Bool → List Nat → List Bool
  | marks, [] => marks
  | marks, o :: rest => markObjs st fuel (markObj st fuel marks o) rest
termination_by _ l => (fuel, l.length + 1)

end

/-- `markValue`: mark the object a value references, nothing for non-objects. -/
def markValue (st : List ObjData) (fuel : Nat) (marks : List Bool) (v : Value) : List Bool :=
  match v with
  | Value.obj o => markObj st fuel marks o
  | _ => marks

/-- C `strlen` on a NUL-terminated byte buffer. -/
def cstrlen : List Nat → Nat
  | [] => 0
  | b :: rest => if b = 0 then 0 else cstrlen rest + 1

/-- The byte size `freeObj` subtracts from `totalAllocated` for one object:
`Fn` hard-codes the fixed buffer sizes, `String` uses
`sizeof(ObjString) + strlen(value)`, `Class` uses `sizeof(ObjClass)`,
`Instance` uses `sizeof(Obj)`. -/
def freeObjSize (σ : Config) : ObjData → Nat
  | ObjData.fn _ _ => σ.szObjFn + σ.szCode * 1024 + σ.szValue * 256
  | ObjData.string bytes => σ.szObjString + cstrlen bytes
  | ObjData.classObj _ _ _ => σ.szObjClass
  | ObjData.inst _ => σ.szObj

/-- The sweep loop of `collectGarbage`: walk the object list; an unmarked
object is unlinked and freed (`totalAllocated -= size`), a marked one has its
flag cleared and stays.  Returns the new list, flags, and `totalAllocated`. -/
def sweepList (σ : Config) (st : List ObjData) :
    List Nat → List Bool → Nat → List Nat × List Bool × Nat
  | [], marks, total => ([], marks, total)
  | o :: rest, marks, total =>
    if mAt marks o then
      let r := sweepList σ st rest (marks.set o false) total
      (o :: r.1, r.2)
    else
      sweepList σ st rest marks
        (total - (match st.get? o with
                  | some d => freeObjSize σ d
                  | none => 0))

/-- The GC roots in source order: defined non-`Null` globals, non-`Null`
pinned values, each active frame's function (bottom frame first, as in C),
every live value-stack slot. -/
def rootIds (s : VMState) : List Nat :=
  ((s.globals.take s.globalSymbolCount).filter (fun v => !IS_NULL v)).filterMap valueObj ++
    (s.pinned.reverse.filter (fun v => !IS_NULL v)).filterMap valueObj ++
    (s.fiber.frames.reverse.map CallFrame.fn) ++
    s.fiber.stack.filterMap valueObj

/-- The mark phase of `collectGarbage`: mark the four root families in
source order.  Fuel `|store| + 1` strictly exceeds the number of unmarked
objects, so marking runs to completion exactly as the C recursion does. -/
def gcMarks (s : VMState) : List Bool :=
  let fuel := s.store.length + 1
  let m1 := ((s.globals.take s.globalSymbolCount).filter (fun v => !IS_NULL v)).foldl
    (markValue s.store fuel) s.marks
  let m2 := ((s.pinned.reverse.filter (fun v => !IS_NULL v)).foldl
    (markValue s.store fuel) m1)
  let m3 := (s.fiber.frames.reverse.map CallFrame.fn).foldl (markObj s.store fuel) m2
  s.fiber.stack.foldl (markValue s.store fuel) m3

/-- `collectGarbage`: mark every root family in order, then sweep the object
list. -/
def collectGarbage (σ : Config) (s : VMState) : VMState :=
  let r := sweepList σ s.store s.first (gcMarks s) s.totalAllocated
  { s with first := r.1, marks := r.2.1, totalAllocated := r.2.2 }

/-- `allocate`: account the size, then (non-stress build) run one collection
iff `totalAllocated` now exceeds `nextGC`, updating `nextGC` to
`totalAllocated * 3 / 2` afterwards.  The returned `Nat` counts the
`collectGarbage` calls performed during this call (instrumentation only). -/
def allocate (σ : Config) (s : VMState) (size : Nat) : VMState × Nat :=
  let s1 := { s with totalAllocated := s.totalAllocated + size }
  if s1.nextGC < s1.totalAllocated then
    let s2 := collectGarbage σ s1
    ({ s2 with nextGC := s2.totalAllocated * 3 / 2 }, 1)
  else
    (s1, 0)

/-- `initObj`: set the header and link the object at the head of `vm->first`.
Appending to the store allocates the fresh id. -/
def initObj (s : VMState) (d : ObjData) : Nat × VMState :=
  (s.store.length,
   { s with
      store := s.store ++ [d]
      marks := s.marks ++ [false]
      first := s.store.length :: s.first })

/-- `pinObj`: `ASSERT(numPinned < MAX_PINNED - 1)`, then append.  Assertion
failure is `none`.  The pin stack's head is its top. -/
def pinObj (maxPinned : Nat) (s : VMState) (v : Value) : Option VMState :=
  if s.pinned.length < maxPinned - 1 then
    some { s with pinned := v :: s.pinned }
  else
    none

/-- `unpinObj`: assert the top of the pin stack has the same `.type` tag as
the value being unpinned (the source's TODO notes this is weaker than pointer
identity), then pop. -/
def unpinObj (s : VMState) (v : Value) : Option VMState :=
  match s.pinned with
  | top :: rest =>
    if valueTag top = valueTag v then some { s with pinned := rest } else none
  | [] => none

/-- `newSingleClass`: allocate, link, and initialise one class object with
every method slot `METHOD_NONE`. -/
def newSingleClass (σ : Config) (s : VMState)
    (metaclass : Option Nat) (superclass : Option Nat) : Nat × VMState :=
  let s1 := (allocate σ s σ.szObjClass).1
  initObj s1 (ObjData.classObj metaclass superclass (List.replicate MAX_SYMBOLS Method.none))

/-- Replace the method table of the class stored at `o`. -/
def setMethods (store : List ObjData) (o : Nat) (methods : List Method) : List ObjData :=
  match store.get? o with
  | some (ObjData.classObj metaclass superclass _) =>
      store.set o (ObjData.classObj metaclass superclass methods)
  | _ => store

/-- Read the method table of the class stored at `o`. -/
def methodsOf (store : List ObjData) (o : Nat) : Option (List Method) :=
  match store.get? o with
  | some (ObjData.classObj _ _ methods) => some methods
  | _ => none

/-- `newClass`: create the metaclass (null metaclass and superclass), pin it
across the allocation of the class proper, unpin, and copy the superclass's
method table slot-wise if a superclass was given.  `none` models an assertion
failure or a read through a non-class superclass pointer. -/
def newClass (σ : Config) (s : VMState) (superclass : Option Nat) :
    Option (Nat × VMState) :=
  let m := newSingleClass σ s none none
  match pinObj σ.maxPinned m.2 (OBJ_VAL m.1) with
  | none => none
  | some s2 =>
    let c := newSingleClass σ s2 (some m.1) superclass
    match unpinObj c.2 (OBJ_VAL m.1) with
    | none => none
    | some s4 =>
      match superclass with
      | none => some (c.1, s4)
      | some sup =>
        match methodsOf s4.store sup with
        | some methods => some (c.1, { s4 with store := setMethods s4.store c.1 methods })
        | none => none

/-- `newFunction`: allocate the fixed-size bytecode and constant buffers
before the `ObjFn` (the allocation-order hazard), then link.  The compiled
contents are supplied by the (out-of-scope) compiler, hence parameters. -/
def newFunction (σ : Config) (s : VMState)
    (bytecode : List Nat) (constants : List Value) : Nat × VMState :=
  let s1 := (allocate σ s (σ.szCode * 1024)).1
  let s2 := (allocate σ s1 (σ.szValue * 256)).1
  let s3 := (allocate σ s2 σ.szObjFn).1
  initObj s3 (ObjData.fn bytecode constants)

/-- `newInstance`: allocate and link a fieldless instance of `classObj`. -/
def newInstance (σ : Config) (s : VMState) (classObj : Nat) : Value × VMState :=
  let s1 := (allocate σ s σ.szObjInstance).1
  let r := initObj s1 (ObjData.inst classObj)
  (OBJ_VAL r.1, r.2)

/-- `newString`: allocate `length + 1` bytes for the text (copied with a
trailing NUL) before the `ObjString` header, then link.  `bytes` is the
`length`-byte source text. -/
def newString (σ : Config) (s : VMState) (bytes : List Nat) : Value × VMState :=
  let s1 := (allocate σ s (bytes.length + 1)).1
  let s2 := (allocate σ s1 σ.szObjString).1
  let r := initObj s2 (ObjData.string (bytes ++ [0]))
  (OBJ_VAL r.1, r.2)

/-- `findSymbol`: linear search, `-1` (here `none`) when absent. -/
def findSymbol (names : List String) (name : String) : Option Nat :=
  names.indexOf? name

/-- `addSymbolUnchecked`: append and return the new id. -/
def addSymbolUnchecked (names : List String) (name : String) : Nat × List String :=
  (names.length, names ++ [name])

/-- `ensureSymbol`: existing id or a fresh one. -/
def ensureSymbol (names : List String) (name : String) : Nat × List String :=
  match findSymbol names name with
  | some i => (i, names)
  | none => addSymbolUnchecked names name

/-- Modelled from the spec: the opcode byte values follow the §6 table (the
`Code` enum lives in the missing header); the contiguity of `CALL_0..CALL_10`
starting at `CODE_CALL_0` is part of the bytecode contract. -/
def CODE_CONSTANT : Nat := 0

def CODE_NULL : Nat := 1

def CODE_FALSE : Nat := 2

def CODE_TRUE : Nat := 3

def CODE_CLASS : Nat := 4

def CODE_SUBCLASS : Nat := 5

def CODE_METACLASS : Nat := 6

def CODE_METHOD : Nat := 7

def CODE_LOAD_LOCAL : Nat := 8

def CODE_STORE_LOCAL : Nat := 9

def CODE_LOAD_GLOBAL : Nat := 10

def CODE_STORE_GLOBAL : Nat := 11

def CODE_DUP : Nat := 12

def CODE_POP : Nat := 13

def CODE_CALL_0 : Nat := 14

def CODE_JUMP : Nat := 25

def CODE_JUMP_IF : Nat := 26

def CODE_IS : Nat := 27

def CODE_END : Nat := 28

/-- Modelled from the spec: `AS_BOOL` from the missing header.  Per §4.F
"`False` is the sole falsy value — not `Null`, not `0`", so every value other
than the `False` singleton converts to `true`. -/
def AS_BOOL (v : Value) : Bool := v ≠ FALSE_VAL

/-- `BOOL_VAL(b)` from the missing header. -/
def BOOL_VAL (b : Bool) : Value := if b then TRUE_VAL else FALSE_VAL

/-- The `AS_CLASS` downcast: in C an unchecked pointer cast; reading a
non-class through it is undefined behaviour, modelled as `none`. -/
def AS_CLASS (s : VMState) (v : Value) : Option Nat :=
  match v with
  | Value.obj o =>
    match s.store.get? o with
    | some (ObjData.classObj _ _ _) => some o
    | _ => none
  | _ => none

/-- The `AS_FN` downcast, same conventions as `AS_CLASS`. -/
def AS_FN (s : VMState) (v : Value) : Option Nat :=
  match v with
  | Value.obj o =>
    match s.store.get? o with
    | some (ObjData.fn _ _) => some o
    | _ => none
  | _ => none

/-- `getClass`: primitive variants map to the VM's singleton classes
(`VAL_NO_VALUE` deliberately answers `nullClass`, the source's hack); a class
answers its metaclass (possibly the C NULL pointer, hence the flattened
`Option`); instances answer their own class. -/
def getClass (s : VMState) (v : Value) : Option Nat :=
  match v with
  | Value.vfalse => s.boolClass
  | Value.vnull => s.nullClass
  | Value.num _ => s.numClass
  | Value.vtrue => s.boolClass
  | Value.novalue => s.nullClass
  | Value.obj o =>
    match s.store.get? o with
    | some (ObjData.classObj metaclass _ _) => metaclass
    | some (ObjData.fn _ _) => s.fnClass
    | some (ObjData.string _) => s.stringClass
    | some (ObjData.inst c) => some c
    | none => none

/-- A host function: receives the VM state and the stack index of `args[0]`
(`&fiber->stack[stackSize - numArgs]`), returns the result `Value` and the
(possibly mutated) state; `none` models a crash inside the host. -/
def PrimFn : Type := VMState → Nat → Option (Value × VMState)

/-- The primitive id under which the interpreter installs
`primitive_metaclass_new` on every fresh metaclass. -/
def metaclassNewId : Nat := 0

/-- `primitive_metaclass_new`: create a fresh instance of the receiver class
(`args[0]`). -/
def primitive_metaclass_new (σ : Config) : PrimFn := fun s argsStart =>
  match s.fiber.stack.get? argsStart with
  | some receiver =>
    match AS_CLASS s receiver with
    | some classId => some (newInstance σ s classId)
    | none => none
  | none => none

/-- `callFunction`: push a frame whose `stackStart` is
`stackSize - numArgs`, overlaying the arguments already on the stack.  The
source performs no frame-stack capacity check (its TODO). -/
def callFunction (s : VMState) (fnId : Nat) (numArgs : Nat) : VMState :=
  { s with fiber := { stack := s.fiber.stack,
                      frames := ⟨fnId, 0, s.fiber.stack.length - numArgs⟩ :: s.fiber.frames } }

/-- Outcome of one dispatch iteration: continue in a new state, return from
the top-level frame, halt the process (`exit(1)` on method-not-found), or hit
C undefined behaviour. -/
inductive StepRes where
  | ok (s : VMState)
  | ret (v : Value)
  | fault
  | stuck
deriving DecidableEq, Repr

/-- One iteration of the dispatch loop of `interpret`.  Operand bytes are read
(and `frame->ip` advanced) before any sub-call, as in the source; the `PUSH`
macro performs no capacity check (the source's TODO), so pushes always
succeed. -/
def step (σ : Config) (env : Nat → PrimFn) (s : VMState) : StepRes :=
  match s.fiber.frames with
  | [] => StepRes.stuck
  | f :: rest =>
    match s.store.get? f.fn with
    | some (ObjData.fn bytecode constants) =>
      match bytecode.get? f.ip with
      | none => StepRes.stuck
      | some inst =>
        match inst with
        | 0 => -- CODE_CONSTANT
          match bytecode.get? (f.ip + 1) with
          | none => StepRes.stuck
          | some idx =>
            match constants.get? idx with
            | none => StepRes.stuck
            | some c =>
              StepRes.ok { s with fiber := { stack := s.fiber.stack ++ [c],
                                             frames := { f with ip := f.ip + 2 } :: rest } }
        | 1 => -- CODE_NULL
          StepRes.ok { s with fiber := { stack := s.fiber.stack ++ [NULL_VAL],
                                         frames := { f with ip := f.ip + 1 } :: rest } }
        | 2 => -- CODE_FALSE
          StepRes.ok { s with fiber := { stack := s.fiber.stack ++ [FALSE_VAL],
                                         frames := { f with ip := f.ip + 1 } :: rest } }
        | 3 => -- CODE_TRUE
          StepRes.ok { s with fiber := { stack := s.fiber.stack ++ [TRUE_VAL],
                                         frames := { f with ip := f.ip + 1 } :: rest } }
        | 4 | 5 => -- CODE_CLASS / CODE_SUBCLASS
          let popped : Option (Option Nat × List Value) :=
            if inst = 4 then some (s.objectClass, s.fiber.stack)
            else
              match s.fiber.stack.getLast? with
              | some v =>
                match AS_CLASS s v with
                | some cid => some (some cid, s.fiber.stack.dropLast)
                | none => none
              | none => none
          match popped with
          | none => StepRes.stuck
          | some (sup, stack1) =>
            let s1 : VMState := { s with fiber := { stack := stack1,
                                                    frames := { f with ip := f.ip + 1 } :: rest } }
            match newClass σ s1 sup with
            | none => StepRes.stuck
            | some (classId, s2) =>
              let s3 := if s2.objectClass = none then { s2 with objectClass := some classId } else s2
              let es := ensureSymbol s3.methodNames "new"
              let s4 := { s3 with methodNames := es.2 }
              match s4.store.get? classId with
              | some (ObjData.classObj (some metaId) _ _) =>
                match methodsOf s4.store metaId with
                | some mm =>
                  let s5 := { s4 with
                    store := setMethods s4.store metaId (mm.set es.1 (Method.primitive metaclassNewId)) }
                  StepRes.ok { s5 with fiber := { stack := s5.fiber.stack ++ [OBJ_VAL classId],
                                                  frames := s5.fiber.frames } }
                | none => StepRes.stuck
              | _ => StepRes.stuck
        | 6 => -- CODE_METACLASS
          match s.fiber.stack.getLast? with
          | none => StepRes.stuck
          | some v =>
            match AS_CLASS s v with
            | none => StepRes.stuck
            | some cid =>
              match s.store.get? cid with
              | some (ObjData.classObj (some m) _ _) =>
                StepRes.ok { s with fiber := { stack := s.fiber.stack ++ [OBJ_VAL m],
                                               frames := { f with ip := f.ip + 1 } :: rest } }
              | _ => StepRes.stuck
        | 7 => -- CODE_METHOD
          match bytecode.get? (f.ip + 1), bytecode.get? (f.ip + 2) with
          | some symbol, some constant =>
            match s.fiber.stack.getLast? with
            | none => StepRes.stuck
            | some v =>
              match AS_CLASS s v with
              | none => StepRes.stuck
              | some classId =>
                match constants.get? constant with
                | none => StepRes.stuck
                | some body =>
                  match AS_FN s body with
                  | none => StepRes.stuck
                  | some fnId =>
                    match methodsOf s.store classId with
                    | none => StepRes.stuck
                    | some mm =>
                      StepRes.ok { s with
                        store := setMethods s.store classId (mm.set symbol (Method.block fnId)),
                        fiber := { stack := s.fiber.stack,
                                   frames := { f with ip := f.ip + 3 } :: rest } }
          | _, _ => StepRes.stuck
        | 8 => -- CODE_LOAD_LOCAL
          match bytecode.get? (f.ip + 1) with
          | none => StepRes.stuck
          | some localIdx =>
            match s.fiber.stack.get? (f.stackStart + localIdx) with
            | none => StepRes.stuck
            | some v =>
              StepRes.ok { s with fiber := { stack := s.fiber.stack ++ [v],
                                             frames := { f with ip := f.ip + 2 } :: rest } }
        | 9 => -- CODE_STORE_LOCAL
          match bytecode.get? (f.ip + 1) with
          | none => StepRes.stuck
          | some localIdx =>
            match s.fiber.stack.getLast? with
            | none => StepRes.stuck
            | some v =>
              if f.stackStart + localIdx < s.fiber.stack.length then
                StepRes.ok { s with fiber := { stack := s.fiber.stack.set (f.stackStart + localIdx) v,
                                               frames := { f with ip := f.ip + 2 } :: rest } }
              else StepRes.stuck
        | 10 => -- CODE_LOAD_GLOBAL
          match bytecode.get? (f.ip + 1) with
          | none => StepRes.stuck
          | some g =>
            match s.globals.get? g with
            | none => StepRes.stuck
            | some v =>
              StepRes.ok { s with fiber := { stack := s.fiber.stack ++ [v],
                                             frames := { f with ip := f.ip + 2 } :: rest } }
        | 11 => -- CODE_STORE_GLOBAL
          match bytecode.get? (f.ip + 1) with
          | none => StepRes.stuck
          | some g =>
            match s.fiber.stack.getLast? with
            | none => StepRes.stuck
            | some v =>
              if g < s.globals.length then
                StepRes.ok { s with globals := s.globals.set g v,
                                    fiber := { stack := s.fiber.stack,
                                               frames := { f with ip := f.ip + 2 } :: rest } }
              else StepRes.stuck
        | 12 => -- CODE_DUP
          match s.fiber.stack.getLast? with
          | none => StepRes.stuck
          | some v =>
            StepRes.ok { s with fiber := { stack := s.fiber.stack ++ [v],
                                           frames := { f with ip := f.ip + 1 } :: rest } }
        | 13 => -- CODE_POP
          match s.fiber.stack.getLast? with
          | none => StepRes.stuck
          | some _ =>
            StepRes.ok { s with fiber := { stack := s.fiber.stack.dropLast,
                                           frames := { f with ip := f.ip + 1 } :: rest } }
        | 14 | 15 | 16 | 17 | 18 | 19 | 20 | 21 | 22 | 23 | 24 => -- CODE_CALL_0 .. CODE_CALL_10
          let numArgs := inst - 14 + 1
          match bytecode.get? (f.ip + 1) with
          | none => StepRes.stuck
          | some symbol =>
            if s.fiber.stack.length < numArgs then StepRes.stuck
            else
              match s.fiber.stack.get? (s.fiber.stack.length - numArgs) with
              | none => StepRes.stuck
              | some receiver =>
                let s1 : VMState := { s with fiber := { stack := s.fiber.stack,
                                                        frames := { f with ip := f.ip + 2 } :: rest } }
                match getClass s1 receiver with
                | none => StepRes.stuck
                | some classId =>
                  match methodsOf s1.store classId with
                  | none => StepRes.stuck
                  | some methods =>
                    match methods.get? symbol with
                    | none => StepRes.stuck
                    | some Method.none => StepRes.fault
                    | some (Method.primitive pid) =>
                      match env pid s1 (s.fiber.stack.length - numArgs) with
                      | none => StepRes.stuck
                      | some (result, s2) =>
                        if result = NO_VALUE then StepRes.ok s2
                        else
                          if s2.fiber.stack.length < numArgs then StepRes.stuck
                          else
                            StepRes.ok { s2 with fiber := {
                              stack := (s2.fiber.stack.set (s2.fiber.stack.length - numArgs) result).take
                                (s2.fiber.stack.length - numArgs + 1),
                              frames := s2.fiber.frames } }
                    | some (Method.block fnId) =>
                      StepRes.ok (callFunction s1 fnId numArgs)
        | 25 => -- CODE_JUMP
          match bytecode.get? (f.ip + 1) with
          | none => StepRes.stuck
          | some offset =>
            StepRes.ok { s with fiber := { stack := s.fiber.stack,
                                           frames := { f with ip := f.ip + 2 + offset } :: rest } }
        | 26 => -- CODE_JUMP_IF
          match bytecode.get? (f.ip + 1) with
          | none => StepRes.stuck
          | some offset =>
            match s.fiber.stack.getLast? with
            | none => StepRes.stuck
            | some condition =>
              StepRes.ok { s with fiber := {
                stack := s.fiber.stack.dropLast,
                frames := { f with
                  ip := f.ip + 2 + (if AS_BOOL condition then 0 else offset) } :: rest } }
        | 27 => -- CODE_IS
          match s.fiber.stack.getLast? with
          | none => StepRes.stuck
          | some classVal =>
            match s.fiber.stack.dropLast.getLast? with
            | none => StepRes.stuck
            | some objVal =>
              match valueObj classVal with
              | none => StepRes.stuck
              | some cid =>
                StepRes.ok { s with fiber := {
                  stack := s.fiber.stack.dropLast.dropLast ++
                    [BOOL_VAL (getClass s objVal = some cid)],
                  frames := { f with ip := f.ip + 1 } :: rest } }
        | 28 => -- CODE_END
          match s.fiber.stack.getLast? with
          | none => StepRes.stuck
          | some result =>
            match rest with
            | [] => StepRes.ret result
            | _ :: _ =>
              if f.stackStart ≤ s.fiber.stack.dropLast.length then
                StepRes.ok { s with fiber := {
                  stack := s.fiber.stack.dropLast.take f.stackStart ++ [result],
                  frames := rest } }
              else StepRes.stuck
        | _ => -- unknown opcode: the default-less C switch silently continues
          StepRes.ok { s with fiber := { stack := s.fiber.stack,
                                         frames := { f with ip := f.ip + 1 } :: rest } }
    | _ => StepRes.stuck

/-- Outcome of running the dispatch loop to completion (with fuel, since a
faulty script loops forever). -/
inductive RunRes where
  | value (v : Value)
  | fault
  | stuck
  | timeout
deriving DecidableEq, Repr

/-- Iterate `step` until the top-level frame returns. -/
def run (σ : Config) (env : Nat → PrimFn) : Nat → VMState → RunRes
  | 0, _ => RunRes.timeout
  | fuel + 1, s =>
    match step σ env s with
    | StepRes.ok s1 => run σ env fuel s1
    | StepRes.ret v => RunRes.value v
    | StepRes.fault => RunRes.fault
    | StepRes.stuck => RunRes.stuck

/-- `interpret`: push the top-level frame with zero arguments and enter the
dispatch loop. -/
def interpret (σ : Config) (env : Nat → PrimFn) (fuel : Nat) (s : VMState) (fnId : Nat) : RunRes :=
  run σ env fuel (callFunction s fnId 0)

/-! ### Shared concrete inputs and projection lemmas -/

/-- A concrete choice of the header constants, used by concrete executions.
All claims proved with it hold for every `Config` unless stated otherwise. -/
def cfg1 : Config := ⟨16, 48, 32, 24, 24, 1, 16, 16⟩

/-- A fresh VM state around a given heap and fiber: globals cleared, no pins,
`nextGC` at its initial 1 MiB (`newVM`), nothing yet allocated. -/
def mkVM (store : List ObjData) (first : List Nat) (stack : List Value)
    (frames : List CallFrame) : VMState :=
  { store := store, marks := List.replicate store.length false, first := first,
    globals := [], globalSymbolCount := 0, methodNames := [], pinned := [],
    fiber := ⟨stack, frames⟩, totalAllocated := 0, nextGC := 1048576,
    objectClass := none, boolClass := none, nullClass := none, numClass := none,
    fnClass := none, stringClass := none }

/-- A host environment with no usable primitives. -/
def noEnv : Nat → PrimFn := fun _ _ _ => none

theorem collectGarbage_store (σ : Config) (s : VMState) :
    (collectGarbage σ s).store = s.store := rfl

theorem collectGarbage_pinned (σ : Config) (s : VMState) :
    (collectGarbage σ s).pinned = s.pinned := rfl

theorem collectGarbage_fiber (σ : Config) (s : VMState) :
    (collectGarbage σ s).fiber = s.fiber := rfl

theorem collectGarbage_methodNames (σ : Config) (s : VMState) :
    (collectGarbage σ s).methodNames = s.methodNames := rfl

theorem collectGarbage_objectClass (σ : Config) (s : VMState) :
    (collectGarbage σ s).objectClass = s.objectClass := rfl

theorem allocate_store (σ : Config) (s : VMState) (size : Nat) :
    ((allocate σ s size).1).store = s.store := by
  unfold allocate
  dsimp only
  split <;> rfl

theorem allocate_pinned (σ : Config) (s : VMState) (size : Nat) :
    ((allocate σ s size).1).pinned = s.pinned := by
  unfold allocate
  dsimp only
  split <;> rfl

theorem allocate_fiber (σ : Config) (s : VMState) (size : Nat) :
    ((allocate σ s size).1).fiber = s.fiber := by
  unfold allocate
  dsimp only
  split <;> rfl

theorem allocate_methodNames (σ : Config) (s : VMState) (size : Nat) :
    ((allocate σ s size).1).methodNames = s.methodNames := by
  unfold allocate
  dsimp only
  split <;> rfl

theorem allocate_objectClass (σ : Config) (s : VMState) (size : Nat) :
    ((allocate σ s size).1).objectClass = s.objectClass := by
  unfold allocate
  dsimp only
  split <;> rfl

/-! ### C7 — the collection trigger inside `allocate` -/

/-- C7: in the normal build a collection runs during `allocate(vm, size)` iff
`totalAllocated`, after accounting the new size, exceeds `nextGC`; when it
runs, exactly one collection occurs and `nextGC` becomes
`totalAllocated * 3 / 2` of the post-sweep `totalAllocated`; otherwise
`nextGC` is unchanged and the call only accounts the size. -/
theorem allocate_gc_trigger (σ : Config) (s : VMState) (size : Nat) :
    ((allocate σ s size).2 = 1 ↔ s.nextGC < s.totalAllocated + size)
  ∧ ((allocate σ s size).2 = 0 ↔ ¬ s.nextGC < s.totalAllocated + size)
  ∧ (s.nextGC < s.totalAllocated + size →
      (allocate σ s size).1 =
        { collectGarbage σ { s with totalAllocated := s.totalAllocated + size } with
          nextGC :=
            (collectGarbage σ { s with totalAllocated := s.totalAllocated + size }).totalAllocated
              * 3 / 2 })
  ∧ (¬ s.nextGC < s.totalAllocated + size →
      (allocate σ s size).1 = { s with totalAllocated := s.totalAllocated + size }
      ∧ (allocate σ s size).1.nextGC = s.nextGC) := by
  unfold allocate
  dsimp only
  by_cases h : s.nextGC < s.totalAllocated + size <;> simp [h]

/-- Witness for C7 at a concrete input: allocating 9 bytes over a `nextGC` of
8 runs the collection. -/
theorem allocate_gc_trigger_witness :
    (allocate cfg1 { mkVM [] [] [] [] with nextGC := 8 } 9).2 = 1 :=
  (allocate_gc_trigger cfg1 { mkVM [] [] [] [] with nextGC := 8 } 9).1.mpr (by decide)

/-! ### C8 — `allocate` does not zero the chunk it returns -/

/-- The memory chunk `allocate` hands back: the final statement of the source
is `return malloc(size);`, so the chunk is exactly what the allocator
provides, with indeterminate contents.  The allocator's contents are an
oracle parameter `malloc`; `allocate` writes nothing into the chunk. -/
def allocateChunk (malloc : Nat → List Nat) (size : Nat) : List Nat := malloc size

/-- C8 counterexample: with an allocator whose fresh memory holds byte 7, the
chunk returned for `size = 1` has a non-zero byte, refuting "all of the size
bytes are zero-initialised". -/
theorem allocateChunk_not_zeroed :
    ¬ (∀ i, i < 1 → (allocateChunk (fun sz => List.replicate sz 7) 1).getD i 0 = 0) := by
  decide

/-- C8 amended: `allocate` returns the chunk exactly as obtained from the
allocator — contents indeterminate, no zero-initialisation — and (absent a
collection) accounts the size in `totalAllocated`. -/
theorem allocateChunk_unmodified (malloc : Nat → List Nat) (size : Nat)
    (σ : Config) (s : VMState) (hgc : ¬ s.nextGC < s.totalAllocated + size) :
    allocateChunk malloc size = malloc size
    ∧ (allocate σ s size).1.totalAllocated = s.totalAllocated + size := by
  refine ⟨rfl, ?_⟩
  unfold allocate
  simp [hgc]

/-- Witness for the amended C8 at a concrete input. -/
theorem allocateChunk_unmodified_witness :
    allocateChunk (fun sz => List.replicate sz 7) 3 = (fun sz => List.replicate sz 7) 3
    ∧ (allocate cfg1 (mkVM [] [] [] []) 3).1.totalAllocated = 0 + 3 :=
  allocateChunk_unmodified (fun sz => List.replicate sz 7) 3 cfg1 (mkVM [] [] [] []) (by decide)

/-! ### C10 — pin-stack capacity and pin/unpin discipline -/

/-- C10: `pinObj` succeeds iff fewer than `MAX_PINNED - 1` values are pinned,
so the effective capacity is one less than the array's `MAX_PINNED` slots: the
`MAX_PINNED`-th simultaneous pin is rejected although the backing array still
has room.  Under that precondition, a pin followed by an `unpinObj` of the
same value restores the pin stack exactly. -/
theorem pinObj_capacity (maxPinned : Nat) (s : VMState) (v : Value)
    (hm : 1 ≤ maxPinned) :
    ((pinObj maxPinned s v).isSome ↔ s.pinned.length < maxPinned - 1)
  ∧ (s.pinned.length = maxPinned - 1 →
      pinObj maxPinned s v = none ∧ s.pinned.length < maxPinned)
  ∧ (∀ s1, pinObj maxPinned s v = some s1 →
      s1.pinned.length = s.pinned.length + 1 ∧ unpinObj s1 v = some s) := by
  refine ⟨?_, ?_, ?_⟩
  · unfold pinObj
    split <;> simp_all
  · intro hfull
    constructor
    · unfold pinObj
      simp [hfull]
    · omega
  · intro s1 hpin
    unfold pinObj at hpin
    split at hpin
    · cases hpin
      constructor
      · simp
      · simp [unpinObj]
    · cases hpin

/-- Witness for C10 at a concrete input (`MAX_PINNED = 16`, empty pin
stack). -/
theorem pinObj_capacity_witness :
    ((pinObj 16 (mkVM [] [] [] []) NULL_VAL).isSome ↔ (mkVM [] [] [] []).pinned.length < 16 - 1) :=
  (pinObj_capacity 16 (mkVM [] [] [] []) NULL_VAL (by decide)).1

/-! ### C4 — `freeObj` accounting versus `allocate` accounting -/

/-- C4: the accounting is broken for strings.  `newString(vm, "", 0)` makes
`allocate` account `length + 1` text bytes plus the header, but `freeObj`
subtracts only `sizeof(ObjString) + strlen(value)` — the trailing NUL byte is
never given back.  Concretely (with `sizeof(ObjString) = 24`): the allocation
accounts 25 bytes, the free releases 24, and after a collection that frees the
only string `totalAllocated` is left at 1 instead of the 0 the claim
requires. -/
theorem newString_accounting_gap :
    (newString cfg1 (mkVM [] [] [] []) []).2.totalAllocated = 25
  ∧ freeObjSize cfg1 (ObjData.string ([] ++ [0])) = 24
  ∧ (collectGarbage cfg1 (newString cfg1 (mkVM [] [] [] []) []).2).totalAllocated = 1 := by
  decide

/-- The general form of the C4 gap: for any sizes and any NUL-free text, the
bytes `allocate` accounted for a string exceed what `freeObj` subtracts by
exactly one (the trailing NUL); for `Fn` and `Class` objects the two sides
agree. -/
theorem freeObj_accounting (σ : Config) (bytes : List Nat) (h : 0 ∉ bytes) :
    (bytes.length + 1 + σ.szObjString) - freeObjSize σ (ObjData.string (bytes ++ [0])) = 1
  ∧ freeObjSize σ (ObjData.string (bytes ++ [0])) + 1 = bytes.length + 1 + σ.szObjString
  ∧ (∀ bc cs, freeObjSize σ (ObjData.fn bc cs) = σ.szCode * 1024 + σ.szValue * 256 + σ.szObjFn)
  ∧ (∀ m sup mm, freeObjSize σ (ObjData.classObj m sup mm) = σ.szObjClass) := by
  have hlen : cstrlen (bytes ++ [0]) = bytes.length := by
    induction bytes with
    | nil => simp [cstrlen]
    | cons b rest ih =>
      simp only [List.mem_cons, not_or] at h
      simp [cstrlen, List.cons_append, Ne.symm h.1, ih h.2]
  refine ⟨?_, ?_, ?_, ?_⟩
  · simp [freeObjSize, hlen]
    omega
  · simp [freeObjSize, hlen]
    omega
  · intro bc cs
    simp [freeObjSize]
    omega
  · intro m sup mm
    simp [freeObjSize]

/-- Witness for `freeObj_accounting` at a concrete input. -/
theorem freeObj_accounting_witness :
    (1 + 1 + cfg1.szObjString) - freeObjSize cfg1 (ObjData.string ([65] ++ [0])) = 1 :=
  (freeObj_accounting cfg1 [65] (by decide)).1

/-! ### C6 — `JUMP_IF` pops and jumps only on `False` -/

/-- C6: executing `JUMP_IF` pops the condition and adds the offset to `ip`
iff the condition is the `False` singleton; a popped `Null` or number leaves
`ip` at the fall-through target. -/
theorem jump_if_semantics (σ : Config) (env : Nat → PrimFn) (s : VMState)
    (f : CallFrame) (rest : List CallFrame) (bytecode : List Nat) (constants : List Value)
    (offset : Nat) (condition : Value)
    (hframes : s.fiber.frames = f :: rest)
    (hfn : s.store.get? f.fn = some (ObjData.fn bytecode constants))
    (hinst : bytecode.get? f.ip = some CODE_JUMP_IF)
    (harg : bytecode.get? (f.ip + 1) = some offset)
    (hcond : s.fiber.stack.getLast? = some condition) :
    step σ env s = StepRes.ok { s with fiber := {
      stack := s.fiber.stack.dropLast,
      frames := { f with ip := f.ip + 2 + (if condition = FALSE_VAL then offset else 0) } :: rest } }
  ∧ (condition = NULL_VAL → (if condition = FALSE_VAL then offset else 0) = 0)
  ∧ (∀ n, condition = Value.num n → (if condition = FALSE_VAL then offset else 0) = 0) := by
  refine ⟨?_, ?_, ?_⟩
  · rw [CODE_JUMP_IF] at hinst
    simp only [step, hframes, hfn, hinst, harg, hcond]
    by_cases hc : condition = FALSE_VAL <;> simp [AS_BOOL, hc]
  · intro hn
    subst hn
    simp [NULL_VAL, FALSE_VAL]
  · intro n hn
    subst hn
    simp [FALSE_VAL]

/-- Witness for C6: a popped `Null` condition does not jump. -/
theorem jump_if_semantics_witness :
    step cfg1 noEnv (mkVM [ObjData.fn [26, 5] []] [0] [NULL_VAL] [⟨0, 0, 0⟩]) =
      StepRes.ok { mkVM [ObjData.fn [26, 5] []] [0] [NULL_VAL] [⟨0, 0, 0⟩] with fiber := {
        stack := [NULL_VAL].dropLast,
        frames := { (⟨0, 0, 0⟩ : CallFrame) with
          ip := 0 + 2 + (if NULL_VAL = FALSE_VAL then 5 else 0) } :: [] } } :=
  (jump_if_semantics cfg1 noEnv (mkVM [ObjData.fn [26, 5] []] [0] [NULL_VAL] [⟨0, 0, 0⟩])
    ⟨0, 0, 0⟩ [] [26, 5] [] 5 NULL_VAL rfl rfl rfl rfl rfl).1

/-! ### C2 — `END`: frame pop, result placement, top-level return -/

/-- C2: `END` in a nested frame pops the frame, takes the top of the value
stack as the result, truncates the stack to `stackStart + 1` slots and places
the result at index `stackStart`; `END` in the outermost frame makes the
dispatch loop return exactly that result value. -/
theorem end_semantics (σ : Config) (env : Nat → PrimFn) (s : VMState)
    (f : CallFrame) (rest : List CallFrame) (bytecode : List Nat) (constants : List Value)
    (result : Value)
    (hframes : s.fiber.frames = f :: rest)
    (hfn : s.store.get? f.fn = some (ObjData.fn bytecode constants))
    (hinst : bytecode.get? f.ip = some CODE_END)
    (hres : s.fiber.stack.getLast? = some result) :
    (rest = [] → step σ env s = StepRes.ret result
      ∧ ∀ fuel, run σ env (fuel + 1) s = RunRes.value result)
  ∧ (rest ≠ [] → f.stackStart + 1 ≤ s.fiber.stack.length →
      step σ env s = StepRes.ok { s with fiber := {
        stack := s.fiber.stack.dropLast.take f.stackStart ++ [result],
        frames := rest } }
      ∧ (s.fiber.stack.dropLast.take f.stackStart ++ [result]).length = f.stackStart + 1
      ∧ (s.fiber.stack.dropLast.take f.stackStart ++ [result]).get? f.stackStart = some result) := by
  rw [CODE_END] at hinst
  have hne : s.fiber.stack ≠ [] := by
    intro hnil
    rw [hnil] at hres
    simp at hres
  have hdrop : s.fiber.stack.dropLast.length = s.fiber.stack.length - 1 :=
    List.length_dropLast _
  constructor
  · intro hrest
    subst hrest
    have hstep : step σ env s = StepRes.ret result := by
      simp only [step, hframes, hfn, hinst, hres]
    refine ⟨hstep, ?_⟩
    intro fuel
    simp [run, hstep]
  · intro hrest hstart
    have hle : f.stackStart ≤ s.fiber.stack.dropLast.length := by
      rw [hdrop]
      omega
    have htake : (s.fiber.stack.dropLast.take f.stackStart).length = f.stackStart := by
      rw [List.length_take]
      omega
    match rest, hrest with
    | r :: rs, _ =>
      refine ⟨?_, ?_, ?_⟩
      · simp only [step, hframes, hfn, hinst, hres, hle, if_pos]
      · simp [htake]
      · rw [List.get?_append_right (by omega)]
        simp [htake]

/-- Witness for C2 at a concrete nested-frame input. -/
theorem end_semantics_witness :
    step cfg1 noEnv
      (mkVM [ObjData.fn [28] []] [0] [Value.num 1, Value.num 2] [⟨0, 0, 1⟩, ⟨0, 0, 0⟩]) =
      StepRes.ok { mkVM [ObjData.fn [28] []] [0] [Value.num 1, Value.num 2]
          [⟨0, 0, 1⟩, ⟨0, 0, 0⟩] with fiber := {
        stack := [Value.num 1, Value.num 2].dropLast.take 1 ++ [Value.num 2],
        frames := [⟨0, 0, 0⟩] } }
    ∧ ([Value.num 1, Value.num 2].dropLast.take 1 ++ [Value.num 2]).length = 1 + 1
    ∧ ([Value.num 1, Value.num 2].dropLast.take 1 ++ [Value.num 2]).get? 1 = some (Value.num 2) :=
  (end_semantics cfg1 noEnv
      (mkVM [ObjData.fn [28] []] [0] [Value.num 1, Value.num 2] [⟨0, 0, 1⟩, ⟨0, 0, 0⟩])
      ⟨0, 0, 1⟩ [⟨0, 0, 0⟩] [28] [] (Value.num 2) rfl rfl rfl rfl).2
    (by decide) (by decide)

/-! ### C9 — no stack-overflow check anywhere -/

/-- A VM about to run a program of `n` consecutive `TRUE` pushes, `k` of which
have already executed. -/
def pushState (n k : Nat) : VMState :=
  mkVM [ObjData.fn (List.replicate n CODE_TRUE ++ [CODE_END]) []] [0]
    (List.replicate k TRUE_VAL) [⟨0, k, 0⟩]

/-- Iterate `step`, requiring every iteration to continue normally. -/
def stepN (σ : Config) (env : Nat → PrimFn) : Nat → VMState → Option VMState
  | 0, s => some s
  | j + 1, s =>
    match step σ env s with
    | StepRes.ok s1 => stepN σ env j s1
    | _ => none

theorem pushState_step (σ : Config) (env : Nat → PrimFn) (n k : Nat) (hk : k < n) :
    step σ env (pushState n k) = StepRes.ok (pushState n (k + 1)) := by
  have hbyte : (List.replicate n CODE_TRUE ++ [CODE_END])[k]? = some 3 := by
    rw [List.getElem?_append_left (by simpa using hk)]
    simp [List.getElem?_replicate, hk, CODE_TRUE]
  simp only [pushState, mkVM, step, List.get?_eq_getElem?, List.getElem?_cons_zero]
  rw [hbyte]
  have hrep : List.replicate k TRUE_VAL ++ [TRUE_VAL] = List.replicate (k + 1) TRUE_VAL := by
    rw [← List.replicate_succ']
  simp [hrep]

theorem pushState_stepN (σ : Config) (env : Nat → PrimFn) (n : Nat) :
    ∀ j k, k + j ≤ n → stepN σ env j (pushState n k) = some (pushState n (k + j)) := by
  intro j
  induction j with
  | zero => intro k _; simp [stepN]
  | succ m ih =>
    intro k hk
    rw [stepN, pushState_step σ env n k (by omega)]
    show stepN σ env m (pushState n (k + 1)) = some (pushState n (k + (m + 1)))
    rw [ih (k + 1) (by omega)]
    congr 2
    omega

/-- C9 (code bug): neither the `PUSH` macro nor `callFunction` consults any
capacity.  A `TRUE` push succeeds at every stack size, `callFunction`
unconditionally grows the frame stack, and for every capacity `cap` the
program of `cap + 1` `TRUE` pushes executes silently to a state holding
`cap + 1` stacked values — one past that capacity — instead of raising the
fatal error the claim requires. -/
theorem stack_overflow_unchecked (σ : Config) (env : Nat → PrimFn) (cap : Nat) :
    (∀ s f rest bytecode constants,
        s.fiber.frames = f :: rest →
        s.store.get? f.fn = some (ObjData.fn bytecode constants) →
        bytecode.get? f.ip = some CODE_TRUE →
        step σ env s = StepRes.ok { s with fiber := {
          stack := s.fiber.stack ++ [TRUE_VAL],
          frames := { f with ip := f.ip + 1 } :: rest } })
  ∧ (∀ s fnId numArgs,
        (callFunction s fnId numArgs).fiber.frames.length = s.fiber.frames.length + 1)
  ∧ stepN σ env (cap + 1) (pushState (cap + 1) 0) = some (pushState (cap + 1) (cap + 1))
  ∧ (pushState (cap + 1) (cap + 1)).fiber.stack.length = cap + 1 := by
  refine ⟨?_, ?_, ?_, ?_⟩
  · intro s f rest bytecode constants hframes hfn hinst
    rw [CODE_TRUE] at hinst
    simp only [step, hframes, hfn, hinst]
  · intro s fnId numArgs
    simp [callFunction]
  · have := pushState_stepN σ env (cap + 1) (cap + 1) 0 (by omega)
    simpa using this
  · simp [pushState, mkVM]

/-- Witness for C9 at a concrete capacity. -/
theorem stack_overflow_unchecked_witness :
    stepN cfg1 noEnv 5 (pushState 5 0) = some (pushState 5 5) :=
  (stack_overflow_unchecked cfg1 noEnv 4).2.2.1

/-! ### C3 — `CALL_N` dispatching to a host primitive -/

theorem take_set_length (l : List Value) (i : Nat) (v : Value) (h : i < l.length) :
    ((l.set i v).take (i + 1)).length = i + 1 := by
  simp [List.length_take]
  omega

theorem take_set_get (l : List Value) (i : Nat) (v : Value) (h : i < l.length) :
    ((l.set i v).take (i + 1)).get? i = some v := by
  rw [List.get?_take (by omega)]
  rw [List.get?_set_eq_of_lt v h]

/-- C3: a `CALL_N` (arity `N + 1`) that resolves to a `Primitive` calls the
host with the argument window rooted at `stack[stackSize - arity]` (the state
already carries the advanced `ip`).  If the host returns something other than
`NoValue`, the returned value replaces the receiver slot and the stack is
truncated by `arity - 1`, leaving the result where the receiver was; if it
returns `NoValue`, the interpreter hands back the host's state untouched, so
the next iteration runs the frame the primitive pushed. -/
theorem call_primitive_semantics (σ : Config) (env : Nat → PrimFn) (s s1 s2 : VMState)
    (f : CallFrame) (rest : List CallFrame) (bytecode : List Nat) (constants : List Value)
    (n symbol pid classId : Nat) (receiver result : Value) (methods : List Method)
    (hn : n ≤ 10)
    (hframes : s.fiber.frames = f :: rest)
    (hfn : s.store.get? f.fn = some (ObjData.fn bytecode constants))
    (hinst : bytecode.get? f.ip = some (CODE_CALL_0 + n))
    (hsym : bytecode.get? (f.ip + 1) = some symbol)
    (hlen : n + 1 ≤ s.fiber.stack.length)
    (hrecv : s.fiber.stack.get? (s.fiber.stack.length - (n + 1)) = some receiver)
    (hs1 : s1 = { s with fiber := {
      stack := s.fiber.stack,
      frames := { f with ip := f.ip + 2 } :: rest } })
    (hclass : getClass s1 receiver = some classId)
    (hmeth : methodsOf s1.store classId = some methods)
    (hslot : methods.get? symbol = some (Method.primitive pid))
    (hcall : env pid s1 (s.fiber.stack.length - (n + 1)) = some (result, s2)) :
    (result = NO_VALUE → step σ env s = StepRes.ok s2)
  ∧ (result ≠ NO_VALUE → n + 1 ≤ s2.fiber.stack.length →
      step σ env s = StepRes.ok { s2 with fiber := {
        stack := (s2.fiber.stack.set (s2.fiber.stack.length - (n + 1)) result).take
          (s2.fiber.stack.length - (n + 1) + 1),
        frames := s2.fiber.frames } }
      ∧ (s2.fiber.stack.length = s.fiber.stack.length →
          ((s2.fiber.stack.set (s2.fiber.stack.length - (n + 1)) result).take
            (s2.fiber.stack.length - (n + 1) + 1)).length = s.fiber.stack.length - n
        ∧ ((s2.fiber.stack.set (s2.fiber.stack.length - (n + 1)) result).take
            (s2.fiber.stack.length - (n + 1) + 1)).get? (s.fiber.stack.length - (n + 1)) =
            some result)) := by
  subst hs1
  rw [CODE_CALL_0] at hinst
  have hnotlt : ¬ s.fiber.stack.length < n + 1 := Nat.not_lt.mpr hlen
  constructor
  · intro hnv
    subst hnv
    interval_cases n <;>
      simp only [step, hframes, hfn, hinst, hsym, Nat.reduceAdd, Nat.reduceSub,
        hnotlt, if_false, hrecv, hclass, hmeth, hslot, hcall, if_pos, ite_true]
  · intro hnv hlen2
    have hnotlt2 : ¬ s2.fiber.stack.length < n + 1 := Nat.not_lt.mpr hlen2
    refine ⟨?_, ?_⟩
    · interval_cases n <;>
        simp only [step, hframes, hfn, hinst, hsym, Nat.reduceAdd, Nat.reduceSub,
          hnotlt, if_false, hrecv, hclass, hmeth, hslot, hcall] <;>
        simp_all
    · intro hsame
      have hi : s2.fiber.stack.length - (n + 1) < s2.fiber.stack.length := by omega
      constructor
      · rw [take_set_length _ _ _ hi]
        omega
      · rw [← hsame, take_set_get _ _ _ hi]

/-- A method table whose slot 3 is the host primitive with id 5. -/
def c3Methods : List Method := (List.replicate MAX_SYMBOLS Method.none).set 3 (Method.primitive 5)

/-- A VM about to run `CALL_0` with symbol 3 on a `Null` receiver whose
`nullClass` method table is `c3Methods`. -/
def c3VM : VMState :=
  { mkVM [ObjData.classObj none none c3Methods, ObjData.fn [14, 3, 28] []] [1, 0]
      [NULL_VAL] [⟨1, 0, 0⟩] with nullClass := some 0 }

/-- `c3VM` with the operand bytes consumed (the state the host observes). -/
def c3VM1 : VMState :=
  { c3VM with fiber := {
      stack := c3VM.fiber.stack,
      frames := { (⟨1, 0, 0⟩ : CallFrame) with ip := 0 + 2 } :: [] } }

/-- A host environment whose primitive 5 returns `Num 42` without touching
the state. -/
def c3Env : Nat → PrimFn := fun pid => fun s _ =>
  if pid = 5 then some (Value.num 42, s) else none

/-- Witness for C3 at a concrete input: `CALL_0` on a primitive returning
`Num 42` leaves the result in the receiver slot. -/
theorem call_primitive_semantics_witness :
    step cfg1 c3Env c3VM = StepRes.ok { c3VM1 with fiber := {
      stack := (c3VM1.fiber.stack.set (c3VM1.fiber.stack.length - (0 + 1)) (Value.num 42)).take
        (c3VM1.fiber.stack.length - (0 + 1) + 1),
      frames := c3VM1.fiber.frames } }
    ∧ (c3VM1.fiber.stack.length = c3VM.fiber.stack.length →
        ((c3VM1.fiber.stack.set (c3VM1.fiber.stack.length - (0 + 1)) (Value.num 42)).take
          (c3VM1.fiber.stack.length - (0 + 1) + 1)).length = c3VM.fiber.stack.length - 0
      ∧ ((c3VM1.fiber.stack.set (c3VM1.fiber.stack.length - (0 + 1)) (Value.num 42)).take
          (c3VM1.fiber.stack.length - (0 + 1) + 1)).get? (c3VM.fiber.stack.length - (0 + 1)) =
          some (Value.num 42)) :=
  (call_primitive_semantics cfg1 c3Env c3VM c3VM1 c3VM1 ⟨1, 0, 0⟩ [] [14, 3, 28] []
      0 3 5 0 NULL_VAL (Value.num 42) c3Methods
      (by decide) rfl rfl (by decide) rfl (by decide) (by decide) rfl (by decide) rfl
      (by decide) rfl).2 (by decide) (by decide)

/-! ### C5 — metaclass pointers of reachable classes -/

/-- A VM about to run `CLASS; METACLASS; END` from a bare state (the first
class defined becomes `Object`). -/
def c5Start : VMState := mkVM [ObjData.fn [4, 6, 28] []] [0] [] [⟨0, 0, 0⟩]

/-- The state after executing `CLASS` and then `METACLASS`. -/
def c5After : StepRes :=
  match step cfg1 noEnv c5Start with
  | StepRes.ok s1 => step cfg1 noEnv s1
  | r => r

/-- Top of the value stack after `CLASS; METACLASS`. -/
def c5Top : Option Value :=
  match c5After with
  | StepRes.ok s => s.fiber.stack.getLast?
  | _ => none

/-- The metaclass pointer of the class object on top of the stack after
`CLASS; METACLASS`. -/
def c5TopMetaclass : Option (Option Nat) :=
  match c5After with
  | StepRes.ok s =>
    match s.fiber.stack.getLast? with
    | some (Value.obj o) =>
      match s.store.get? o with
      | some (ObjData.classObj m _ _) => some m
      | _ => none
    | _ => none
  | _ => none

/-- C5 counterexample: after `CLASS; METACLASS` the value the `METACLASS`
opcode pushed is the class object with id 1 — the metaclass that `newClass`
created — and that class's metaclass pointer is null, although it is neither
the bootstrap class nor mid-wiring.  This refutes the claim that every class
referenced from a `Value.Obj` (in particular the one `METACLASS` pushes) has
a non-null metaclass. -/
theorem metaclass_opcode_counterexample :
    c5Top = some (Value.obj 1) ∧ c5TopMetaclass = some none := by decide

theorem newSingleClass_fst (σ : Config) (s : VMState) (m sup : Option Nat) :
    (newSingleClass σ s m sup).1 = s.store.length := by
  simp only [newSingleClass, initObj, allocate_store]

theorem newSingleClass_store (σ : Config) (s : VMState) (m sup : Option Nat) :
    (newSingleClass σ s m sup).2.store =
      s.store ++ [ObjData.classObj m sup (List.replicate MAX_SYMBOLS Method.none)] := by
  simp only [newSingleClass, initObj, allocate_store]

theorem newSingleClass_pinned (σ : Config) (s : VMState) (m sup : Option Nat) :
    (newSingleClass σ s m sup).2.pinned = s.pinned := by
  simp only [newSingleClass, initObj, allocate_pinned]

/-- C5 amended: every class object `newClass` returns carries a non-null
metaclass pointer (to the freshly created metaclass at the next-lower store
id), while the metaclass object itself — the very value a later `METACLASS`
opcode pushes — has a null metaclass pointer.  The claimed invariant thus
holds for classes proper and fails exactly on metaclass objects. -/
theorem newClass_metaclass_shape (σ : Config) (s : VMState) (sup : Option Nat)
    (cid : Nat) (s1 : VMState)
    (h : newClass σ s sup = some (cid, s1)) :
    cid = s.store.length + 1
    ∧ (∃ methods, s1.store.get? cid =
        some (ObjData.classObj (some s.store.length) sup methods))
    ∧ (∃ methodsMeta, s1.store.get? s.store.length =
        some (ObjData.classObj none none methodsMeta)) := by
  simp only [newClass] at h
  split at h
  · exact absurd h (by simp)
  case _ s2 heq2 =>
    have hs2 : s2 = { (newSingleClass σ s none none).2 with
        pinned := OBJ_VAL (newSingleClass σ s none none).1 ::
          (newSingleClass σ s none none).2.pinned } := by
      unfold pinObj at heq2
      split at heq2
      · cases heq2
        rfl
      · cases heq2
    split at h
    · exact absurd h (by simp)
    case _ s4 heq4 =>
      have hs4base : s4.store =
          (newSingleClass σ s2 (some (newSingleClass σ s none none).1) sup).2.store := by
        unfold unpinObj at heq4
        split at heq4
        · split at heq4
          · cases heq4
            rfl
          · cases heq4
        · cases heq4
      have hs4store : s4.store = s.store ++
          [ObjData.classObj none none (List.replicate MAX_SYMBOLS Method.none)] ++
          [ObjData.classObj (some s.store.length) sup (List.replicate MAX_SYMBOLS Method.none)] := by
        rw [hs4base, newSingleClass_store, newSingleClass_fst]
        rw [hs2]
        show (newSingleClass σ s none none).2.store ++ _ = _
        rw [newSingleClass_store]
      have hc1 : (newSingleClass σ s2 (some (newSingleClass σ s none none).1) sup).1 =
          s.store.length + 1 := by
        rw [newSingleClass_fst, hs2]
        show (newSingleClass σ s none none).2.store.length = _
        rw [newSingleClass_store]
        simp
      have hmetaGet : s4.store.get? s.store.length =
          some (ObjData.classObj none none (List.replicate MAX_SYMBOLS Method.none)) := by
        rw [hs4store, List.get?_eq_getElem?, List.append_assoc,
          List.getElem?_append_right (by omega)]
        simp
      have hclsGet : s4.store.get? (s.store.length + 1) =
          some (ObjData.classObj (some s.store.length) sup
            (List.replicate MAX_SYMBOLS Method.none)) := by
        rw [hs4store, List.get?_eq_getElem?, List.append_assoc,
          List.getElem?_append_right (by omega)]
        simp
      have hclsLt : s.store.length + 1 < s4.store.length := by
        rw [hs4store]
        simp
      match sup, h with
      | none, h =>
        rw [hc1] at h
        cases h
        exact ⟨rfl, ⟨_, hclsGet⟩, ⟨_, hmetaGet⟩⟩
      | some supId, h =>
        dsimp only at h
        split at h
        case _ mm hmm =>
          rw [hc1] at h
          cases h
          refine ⟨rfl, ⟨mm, ?_⟩, ⟨List.replicate MAX_SYMBOLS Method.none, ?_⟩⟩
          · show (setMethods s4.store (s.store.length + 1) mm).get? (s.store.length + 1) = _
            unfold setMethods
            rw [hclsGet]
            rw [List.get?_set_eq_of_lt _ hclsLt]
          · show (setMethods s4.store (s.store.length + 1) mm).get? s.store.length = _
            unfold setMethods
            rw [hclsGet]
            rw [List.get?_set_ne _ _ (by omega)]
            exact hmetaGet
        · exact absurd h (by simp)

/-- The result of defining a class over a bare VM, used to instantiate the
amended C5 theorem concretely. -/
def c5NewClassResult : Nat × VMState :=
  (newClass cfg1 (mkVM [] [] [] []) none).getD (0, mkVM [] [] [] [])

/-- Witness for the amended C5 at a concrete input. -/
theorem newClass_metaclass_shape_witness :
    c5NewClassResult.1 = (mkVM [] [] [] []).store.length + 1
    ∧ (∃ methods, c5NewClassResult.2.store.get? c5NewClassResult.1 =
        some (ObjData.classObj (some (mkVM [] [] [] []).store.length) none methods))
    ∧ (∃ methodsMeta, c5NewClassResult.2.store.get? (mkVM [] [] [] []).store.length =
        some (ObjData.classObj none none methodsMeta)) :=
  newClass_metaclass_shape cfg1 (mkVM [] [] [] []) none
    c5NewClassResult.1 c5NewClassResult.2 (by rfl)

/-! ### C1 — the object list after `collectGarbage` is exactly the reachable set

The mark traversal of `markObj` is depth-first with a visited bit; its
correctness argument needs a path-based reachability relation that avoids a
given set `M` of already-marked objects. -/

/-- `RA st M o x`: there is a path from `o` to `x` along `succsAt st` edges
all of whose vertices avoid `M` (and are valid store ids).  With `M = ∅` this
is plain mark-traversal reachability. -/
inductive RA (st : List ObjData) (M : Nat → Prop) : Nat → Nat → Prop where
  | refl (o : Nat) (ho : ¬ M o) (hv : o < st.length) : RA st M o o
  | tail {o b c : Nat} (h : RA st M o b) (hc : c ∈ succsAt st b)
      (hM : ¬ M c) (hv : c < st.length) : RA st M o c

theorem RA_start_not {st : List ObjData} {M : Nat → Prop} {o x : Nat}
    (h : RA st M o x) : ¬ M o := by
  induction h with
  | refl ho hv => exact ho
  | tail h hc hM hv ih => exact ih

theorem RA_target_not {st : List ObjData} {M : Nat → Prop} {o x : Nat}
    (h : RA st M o x) : ¬ M x := by
  cases h with
  | refl ho hv => exact ho
  | tail h hc hM hv => exact hM

theorem RA_start_valid {st : List ObjData} {M : Nat → Prop} {o x : Nat}
    (h : RA st M o x) : o < st.length := by
  induction h with
  | refl ho hv => exact hv
  | tail h hc hM hv ih => exact ih

theorem RA_target_valid {st : List ObjData} {M : Nat → Prop} {o x : Nat}
    (h : RA st M o x) : x < st.length := by
  cases h with
  | refl ho hv => exact hv
  | tail h hc hM hv => exact hv

/-- Paths avoiding a larger set also avoid a smaller one. -/
theorem RA_mono {st : List ObjData} {M M' : Nat → Prop} (hMM : ∀ i, M i → M' i)
    {o x : Nat} (h : RA st M' o x) : RA st M o x := by
  induction h with
  | refl ho hv => exact RA.refl _ (fun hMo => ho (hMM _ hMo)) hv
  | tail h hc hM hv ih => exact RA.tail ih hc (fun hMc => hM (hMM _ hMc)) hv

theorem RA_congr {st : List ObjData} {M M' : Nat → Prop} (hMM : ∀ i, M i ↔ M' i)
    {o x : Nat} : RA st M o x ↔ RA st M' o x :=
  ⟨RA_mono (fun i h => (hMM i).mpr h), RA_mono (fun i h => (hMM i).mp h)⟩

theorem RA_trans {st : List ObjData} {M : Nat → Prop} {a b c : Nat}
    (h1 : RA st M a b) (h2 : RA st M b c) : RA st M a c := by
  induction h2 with
  | refl ho hv => exact h1
  | tail h hc hM hv ih => exact RA.tail ih hc hM hv

theorem RA_cons_fwd {st : List ObjData} {M : Nat → Prop} :
    ∀ {o x : Nat}, RA st M o x →
      x = o ∨ ∃ c ∈ succsAt st o, RA st (fun i => M i ∨ i = o) c x := by
  intro o x h
  induction h with
  | refl ho hv => exact Or.inl rfl
  | tail hb hc hM hvc ih =>
    rename_i b c
    rcases ih with hbo | ⟨c0, hc0, hb0⟩
    · rw [hbo] at hc
      by_cases hco : c = o
      · exact Or.inl hco
      · exact Or.inr ⟨c, hc, RA.refl c (by tauto) hvc⟩
    · by_cases hco : c = o
      · exact Or.inl hco
      · exact Or.inr ⟨c0, hc0, RA.tail hb0 hc (by tauto) hvc⟩

/-- Unfolding a path one step at its source: reaching `x` from an unmarked
`o` means `x` is `o` itself or is reached from one of `o`'s successors along
a path that additionally avoids `o`. -/
theorem RA_cons {st : List ObjData} {M : Nat → Prop} {o x : Nat}
    (ho : ¬ M o) (hv : o < st.length) :
    RA st M o x ↔ (x = o ∨ ∃ c ∈ succsAt st o, RA st (fun i => M i ∨ i = o) c x) := by
  constructor
  · exact RA_cons_fwd
  · intro h
    rcases h with hxo | ⟨c, hc, hcx⟩
    · subst hxo
      exact RA.refl x ho hv
    · have hcnot : ¬ M c := by
        have := RA_start_not hcx
        tauto
      have hc0 : RA st M o c :=
        RA.tail (RA.refl o ho hv) hc hcnot (RA_start_valid hcx)
      exact RA_trans hc0 (RA_mono (fun i h => Or.inl h) hcx)

theorem RA_absorb_aux {st : List ObjData} {M M' : Nat → Prop} {o : Nat}
    (hM2 : ∀ i, M' i ↔ M i ∨ RA st M o i) :
    ∀ {r x : Nat}, RA st M r x → (RA st M' r x ∨ RA st M o x) := by
  intro r x h
  induction h with
  | refl ha hv =>
    by_cases hra : RA st M o r
    · exact Or.inr hra
    · exact Or.inl (RA.refl r (fun hm => ((hM2 r).mp hm).elim ha hra) hv)
  | tail hb hc hM3 hv ih =>
    rename_i b c
    rcases ih with hb' | hb'
    · by_cases hrc : RA st M o c
      · exact Or.inr hrc
      · exact Or.inl (RA.tail hb' hc (fun hm => ((hM2 c).mp hm).elim hM3 hrc) hv)
    · exact Or.inr (RA.tail hb' hc hM3 hv)

/-- Absorption: once `M'` is `M` enlarged by everything reachable from `o`,
reaching `x` while avoiding only `M` is no stronger than reaching it while
avoiding `M'`, modulo landing in the already-absorbed part. -/
theorem RA_absorb {st : List ObjData} {M M' : Nat → Prop} {o : Nat}
    (hM' : ∀ i, M' i ↔ M i ∨ RA st M o i) (r x : Nat) :
    (RA st M' r x ∨ RA st M o x ∨ M x) ↔ (RA st M r x ∨ RA st M o x ∨ M x) := by
  constructor
  · rintro (h | h | h)
    · exact Or.inl (RA_mono (fun i hi => (hM' i).mpr (Or.inl hi)) h)
    · exact Or.inr (Or.inl h)
    · exact Or.inr (Or.inr h)
  · rintro (h | h | h)
    · rcases RA_absorb_aux hM' h with h2 | h2
      · exact Or.inl h2
      · exact Or.inr (Or.inl h2)
    · exact Or.inr (Or.inl h)
    · exact Or.inr (Or.inr h)

/-! #### Bookkeeping for the MARKED flags -/

theorem mAt_true_lt {marks : List Bool} {o : Nat} (h : mAt marks o = true) :
    o < marks.length := by
  by_contra hge
  unfold mAt at h
  rw [List.getD_eq_default _ _ (by omega)] at h
  cases h

theorem mAt_getD (marks : List Bool) (x : Nat) : mAt marks x = (marks.get? x).getD false := by
  unfold mAt
  rcases Nat.lt_or_ge x marks.length with h | h
  · rw [List.getD_eq_getElem _ _ h, List.get?_eq_getElem?, List.getElem?_eq_getElem h]
    rfl
  · rw [List.getD_eq_default _ _ h, List.get?_eq_getElem?, List.getElem?_eq_none (by omega)]
    rfl

theorem mAt_set_true (marks : List Bool) (o x : Nat) :
    mAt (marks.set o true) x = true ↔
      (mAt marks x = true ∨ (x = o ∧ o < marks.length)) := by
  rw [mAt_getD, mAt_getD]
  rcases Nat.lt_or_ge o marks.length with ho | ho
  · by_cases hxo : x = o
    · subst hxo
      rw [List.get?_set_eq_of_lt _ ho]
      simp [ho]
    · rw [List.get?_set_ne _ _ (fun h => hxo h.symm)]
      simp [hxo]
  · rw [List.set_eq_of_length_le (by omega)]
    constructor
    · exact Or.inl
    · rintro (h | ⟨_, h⟩)
      · exact h
      · omega

theorem mAt_set_false (marks : List Bool) (o x : Nat) :
    mAt (marks.set o false) x = true ↔ (mAt marks x = true ∧ x ≠ o) := by
  rw [mAt_getD, mAt_getD]
  by_cases hxo : x = o
  · subst hxo
    rcases Nat.lt_or_ge x marks.length with h | h
    · rw [List.get?_set_eq_of_lt _ h]
      simp
    · rw [List.set_eq_of_length_le (by omega), List.get?_eq_getElem?,
        List.getElem?_eq_none (by omega)]
      simp
  · rw [List.get?_set_ne _ _ (fun h => hxo h.symm)]
    simp [hxo]

/-- The number of unmarked ids below `n`; the potential that makes the DFS
fuel argument go through. -/
def unmarkedCard (n : Nat) (marks : List Bool) : Nat :=
  ((Finset.range n).filter (fun i => mAt marks i = false)).card

theorem unmarkedCard_le (n : Nat) (marks : List Bool) : unmarkedCard n marks ≤ n := by
  calc ((Finset.range n).filter (fun i => mAt marks i = false)).card
      ≤ (Finset.range n).card := Finset.card_filter_le _ _
    _ = n := Finset.card_range n

theorem unmarkedCard_mono (n : Nat) {m m' : List Bool}
    (h : ∀ x, mAt m x = true → mAt m' x = true) :
    unmarkedCard n m' ≤ unmarkedCard n m := by
  apply Finset.card_le_card
  intro i hi
  rw [Finset.mem_filter] at hi ⊢
  rcases hi with ⟨hr, hm2⟩
  refine ⟨hr, ?_⟩
  cases hmi : mAt m i
  · rfl
  · rw [h i hmi] at hm2
    cases hm2

theorem unmarkedCard_set_lt (n : Nat) (marks : List Bool) (o : Nat)
    (hon : o < n) (hno : mAt marks o = false) (hol : o < marks.length) :
    unmarkedCard n (marks.set o true) < unmarkedCard n marks := by
  apply Finset.card_lt_card
  rw [Finset.ssubset_iff_of_subset]
  · exact ⟨o, by
      rw [Finset.mem_filter]
      exact ⟨Finset.mem_range.mpr hon, hno⟩, by
      rw [Finset.mem_filter]
      rintro ⟨-, hmk⟩
      rw [Bool.eq_false_iff] at hmk
      exact hmk ((mAt_set_true marks o o).mpr (Or.inr ⟨rfl, hol⟩))⟩
  · intro i hi
    rw [Finset.mem_filter] at hi ⊢
    rcases hi with ⟨hr, hset⟩
    refine ⟨hr, ?_⟩
    cases hmi : mAt marks i
    · rfl
    · have := (mAt_set_true marks o i).mpr (Or.inl hmi)
      rw [hset] at this
      cases this

/-! #### The mark phase computes exactly the reachable set -/

theorem mark_length (st : List ObjData) :
    ∀ fuel, (∀ marks o, (markObj st fuel marks o).length = marks.length)
          ∧ (∀ l marks, (markObjs st fuel marks l).length = marks.length) := by
  intro fuel
  induction fuel with
  | zero =>
    have hA : ∀ (marks : List Bool) o, (markObj st 0 marks o).length = marks.length := by
      intro marks o
      rw [markObj]
    refine ⟨hA, ?_⟩
    intro l
    induction l with
    | nil => intro marks; rw [markObjs]
    | cons o rest ih =>
      intro marks
      rw [markObjs, ih, hA]
  | succ f ihf =>
    have hA : ∀ (marks : List Bool) o, (markObj st (f + 1) marks o).length = marks.length := by
      intro marks o
      rw [markObj]
      split
      · rfl
      · split
        · rfl
        · rw [ihf.2, List.length_set]
    refine ⟨hA, ?_⟩
    intro l
    induction l with
    | nil => intro marks; rw [markObjs]
    | cons o rest ih =>
      intro marks
      rw [markObjs, ih, hA]

theorem mark_mono (st : List ObjData) :
    ∀ fuel, (∀ marks o x, mAt marks x = true → mAt (markObj st fuel marks o) x = true)
          ∧ (∀ l marks x, mAt marks x = true → mAt (markObjs st fuel marks l) x = true) := by
  intro fuel
  induction fuel with
  | zero =>
    have hA : ∀ (marks : List Bool) o x, mAt marks x = true →
        mAt (markObj st 0 marks o) x = true := by
      intro marks o x h
      rw [markObj]
      exact h
    refine ⟨hA, ?_⟩
    intro l
    induction l with
    | nil =>
      intro marks x h
      rw [markObjs]
      exact h
    | cons o rest ih =>
      intro marks x h
      rw [markObjs]
      exact ih _ _ (hA _ _ _ h)
  | succ f ihf =>
    have hA : ∀ (marks : List Bool) o x, mAt marks x = true →
        mAt (markObj st (f + 1) marks o) x = true := by
      intro marks o x h
      rw [markObj]
      split
      · exact h
      · split
        · exact h
        · exact ihf.2 _ _ _ ((mAt_set_true marks _ x).mpr (Or.inl h))
    refine ⟨hA, ?_⟩
    intro l
    induction l with
    | nil =>
      intro marks x h
      rw [markObjs]
      exact h
    | cons o rest ih =>
      intro marks x h
      rw [markObjs]
      exact ih _ _ (hA _ _ _ h)

/-- Correctness of the depth-first mark: with adequate fuel, `markObj` marks
exactly the previously marked ids plus everything reachable from `o` along
paths avoiding them; `markObjs` does so for a whole root list. -/
theorem mark_spec (st : List ObjData) :
    ∀ fuel,
      (∀ marks o, marks.length = st.length → unmarkedCard st.length marks < fuel →
        ∀ x, mAt (markObj st fuel marks o) x = true ↔
          (mAt marks x = true ∨ RA st (fun i => mAt marks i = true) o x))
    ∧ (∀ l marks, marks.length = st.length → unmarkedCard st.length marks < fuel →
        ∀ x, mAt (markObjs st fuel marks l) x = true ↔
          (mAt marks x = true ∨ ∃ o ∈ l, RA st (fun i => mAt marks i = true) o x)) := by
  intro fuel
  induction fuel with
  | zero =>
    constructor
    · intro marks o hlen hcard
      exact absurd hcard (Nat.not_lt_zero _)
    · intro l marks hlen hcard
      exact absurd hcard (Nat.not_lt_zero _)
  | succ f ihf =>
    have hA : ∀ marks o, marks.length = st.length →
        unmarkedCard st.length marks < f + 1 →
        ∀ x, mAt (markObj st (f + 1) marks o) x = true ↔
          (mAt marks x = true ∨ RA st (fun i => mAt marks i = true) o x) := by
      intro marks o hlen hcard x
      rw [markObj]
      split
      case isTrue hmk =>
        constructor
        · exact Or.inl
        · rintro (h | hRA)
          · exact h
          · exact absurd hmk (RA_start_not hRA)
      case isFalse hmk =>
        split
        case h_1 hget =>
          constructor
          · exact Or.inl
          · rintro (h | hRA)
            · exact h
            · have hv := RA_start_valid hRA
              have := List.get?_eq_none.mp hget
              omega
        case h_2 d hget =>
          have hv : o < st.length := by
            obtain ⟨h1, -⟩ := List.get?_eq_some.mp hget
            exact h1
          have hol : o < marks.length := by omega
          have hno : mAt marks o = false := by
            cases h2 : mAt marks o
            · rfl
            · exact absurd h2 hmk
          have hcard1 : unmarkedCard st.length (marks.set o true) < f := by
            have h1 := unmarkedCard_set_lt st.length marks o (by omega) hno hol
            omega
          have hlen1 : (marks.set o true).length = st.length := by
            rw [List.length_set]
            exact hlen
          have hB := ihf.2 (succs d) (marks.set o true) hlen1 hcard1 x
          have hM1 : ∀ i, (mAt (marks.set o true) i = true) ↔
              (mAt marks i = true ∨ i = o) := by
            intro i
            rw [mAt_set_true]
            constructor
            · rintro (h | ⟨h, -⟩)
              · exact Or.inl h
              · exact Or.inr h
            · rintro (h | h)
              · exact Or.inl h
              · exact Or.inr ⟨h, hol⟩
          have hsucc : succsAt st o = succs d := by
            unfold succsAt
            rw [hget]
          have hcons := @RA_cons st (fun i => mAt marks i = true) o x hmk hv
          rw [hB, hcons, hsucc, hM1 x]
          have hRAc : ∀ c, RA st (fun i => mAt (marks.set o true) i = true) c x ↔
              RA st (fun i => mAt marks i = true ∨ i = o) c x := fun c => RA_congr hM1
          constructor
          · rintro (h | ⟨c, hc, hRA⟩)
            · tauto
            · exact Or.inr (Or.inr ⟨c, hc, (hRAc c).mp hRA⟩)
          · rintro (h | h | ⟨c, hc, hRA⟩)
            · tauto
            · tauto
            · exact Or.inr ⟨c, hc, (hRAc c).mpr hRA⟩
    refine ⟨hA, ?_⟩
    intro l
    induction l with
    | nil =>
      intro marks hlen hcard x
      rw [markObjs]
      simp
    | cons o rest ih =>
      intro marks hlen hcard x
      rw [markObjs]
      have hm2 := hA marks o hlen hcard
      have hlen2 : (markObj st (f + 1) marks o).length = st.length := by
        rw [(mark_length st (f + 1)).1]
        exact hlen
      have hmono : ∀ y, mAt marks y = true → mAt (markObj st (f + 1) marks o) y = true :=
        fun y hy => (mark_mono st (f + 1)).1 _ _ _ hy
      have hcard2 : unmarkedCard st.length (markObj st (f + 1) marks o) < f + 1 :=
        lt_of_le_of_lt (unmarkedCard_mono _ hmono) hcard
      rw [ih (markObj st (f + 1) marks o) hlen2 hcard2 x]
      constructor
      · rintro (h | ⟨r, hr, hRA⟩)
        · rcases (hm2 x).mp h with h2 | h2
          · exact Or.inl h2
          · exact Or.inr ⟨o, List.mem_cons_self o rest, h2⟩
        · exact Or.inr ⟨r, List.mem_cons_of_mem o hr,
            RA_mono (fun i hi => (hm2 i).mpr (Or.inl hi)) hRA⟩
      · rintro (h | ⟨r, hr, hRA⟩)
        · exact Or.inl ((hm2 x).mpr (Or.inl h))
        · rcases List.mem_cons.mp hr with hro | hrr
          · subst hro
            exact Or.inl ((hm2 x).mpr (Or.inr hRA))
          · rcases RA_absorb_aux (fun i => hm2 i) hRA with h2 | h2
            · exact Or.inr ⟨r, hrr, h2⟩
            · exact Or.inl ((hm2 x).mpr (Or.inr h2))

theorem markObjs_nil (st : List ObjData) (fuel : Nat) (marks : List Bool) :
    markObjs st fuel marks [] = marks := by
  rw [markObjs]

theorem markObjs_cons (st : List ObjData) (fuel : Nat) (marks : List Bool) (o : Nat)
    (l : List Nat) :
    markObjs st fuel marks (o :: l) = markObjs st fuel (markObj st fuel marks o) l := by
  rw [markObjs]

theorem foldl_markValue_eq (st : List ObjData) (fuel : Nat) :
    ∀ (vs : List Value) (marks : List Bool),
      vs.foldl (markValue st fuel) marks = markObjs st fuel marks (vs.filterMap valueObj) := by
  intro vs
  induction vs with
  | nil =>
    intro marks
    rw [List.filterMap_nil, List.foldl_nil, markObjs_nil]
  | cons v rest ih =>
    intro marks
    cases v with
    | obj o =>
      rw [List.foldl_cons, ih,
        show List.filterMap valueObj (Value.obj o :: rest) = o :: List.filterMap valueObj rest
          from by simp [List.filterMap_cons, valueObj],
        markObjs_cons]
      rfl
    | vfalse =>
      rw [List.foldl_cons, ih]
      simp [List.filterMap_cons, valueObj, markValue]
    | vnull =>
      rw [List.foldl_cons, ih]
      simp [List.filterMap_cons, valueObj, markValue]
    | vtrue =>
      rw [List.foldl_cons, ih]
      simp [List.filterMap_cons, valueObj, markValue]
    | novalue =>
      rw [List.foldl_cons, ih]
      simp [List.filterMap_cons, valueObj, markValue]
    | num n =>
      rw [List.foldl_cons, ih]
      simp [List.filterMap_cons, valueObj, markValue]

theorem foldl_markObj_eq (st : List ObjData) (fuel : Nat) :
    ∀ (l : List Nat) (marks : List Bool),
      l.foldl (markObj st fuel) marks = markObjs st fuel marks l := by
  intro l
  induction l with
  | nil =>
    intro marks
    rw [List.foldl_nil, markObjs_nil]
  | cons o rest ih =>
    intro marks
    rw [List.foldl_cons, ih, markObjs_cons]

theorem markObjs_append (st : List ObjData) (fuel : Nat) :
    ∀ (l1 l2 : List Nat) (marks : List Bool),
      markObjs st fuel marks (l1 ++ l2) = markObjs st fuel (markObjs st fuel marks l1) l2 := by
  intro l1
  induction l1 with
  | nil =>
    intro l2 marks
    rw [List.nil_append, markObjs_nil]
  | cons o rest ih =>
    intro l2 marks
    rw [List.cons_append, markObjs_cons, markObjs_cons, ih]

/-- The mark phase is one `markObjs` pass over the root list. -/
theorem gcMarks_eq (s : VMState) :
    gcMarks s = markObjs s.store (s.store.length + 1) s.marks (rootIds s) := by
  unfold gcMarks rootIds
  rw [foldl_markValue_eq, foldl_markValue_eq, foldl_markObj_eq, foldl_markValue_eq]
  rw [markObjs_append, markObjs_append, markObjs_append]

/-- Sweep keeps exactly the marked members of the object list. -/
theorem sweepList_mem (σ : Config) (st : List ObjData) :
    ∀ (l : List Nat) (marks : List Bool) (total x : Nat),
      x ∈ (sweepList σ st l marks total).1 ↔ (x ∈ l ∧ mAt marks x = true) := by
  intro l
  induction l with
  | nil =>
    intro marks total x
    rw [sweepList]
    simp
  | cons o rest ih =>
    intro marks total x
    rw [sweepList]
    split
    case isTrue hmk =>
      have hol : o < marks.length := mAt_true_lt hmk
      constructor
      · intro hx
        rcases List.mem_cons.mp hx with hxo | hxr
        · subst hxo
          exact ⟨List.mem_cons_self _ _, hmk⟩
        · have := (ih (marks.set o false) total x).mp hxr
          rcases this with ⟨hmem, hset⟩
          rcases (mAt_set_false marks o x).mp hset with ⟨hmx, -⟩
          exact ⟨List.mem_cons_of_mem o hmem, hmx⟩
      · rintro ⟨hmem, hmx⟩
        rcases List.mem_cons.mp hmem with hxo | hxr
        · subst hxo
          exact List.mem_cons_self _ _
        · by_cases hxo : x = o
          · subst hxo
            exact List.mem_cons_self _ _
          · exact List.mem_cons_of_mem o
              ((ih (marks.set o false) total x).mpr
                ⟨hxr, (mAt_set_false marks o x).mpr ⟨hmx, hxo⟩⟩)
    case isFalse hmk =>
      rw [ih]
      constructor
      · rintro ⟨hmem, hmx⟩
        exact ⟨List.mem_cons_of_mem o hmem, hmx⟩
      · rintro ⟨hmem, hmx⟩
        rcases List.mem_cons.mp hmem with hxo | hxr
        · subst hxo
          exact absurd hmx hmk
        · exact ⟨hxr, hmx⟩

/-- Mark-traversal reachability from the GC roots (spec §4.C edges: a class's
metaclass and `Block` method functions, a function's constants; no superclass
edge). -/
def Reachable (s : VMState) (x : Nat) : Prop :=
  ∃ r ∈ rootIds s, RA s.store (fun _ => False) r x

/-- When the roots lie on the object list and the list is closed under the
mark edges (spec invariant 1), everything reachable lies on the list. -/
theorem reach_mem_first (s : VMState)
    (hroots : ∀ r ∈ rootIds s, r ∈ s.first)
    (hclosed : ∀ o ∈ s.first, ∀ c ∈ succsAt s.store o, c ∈ s.first) :
    ∀ x, Reachable s x → x ∈ s.first := by
  rintro x ⟨r, hr, hRA⟩
  induction hRA with
  | refl ho hv => exact hroots r hr
  | tail hb hc hM hv ih => exact hclosed _ ih _ hc

/-- C1: after `collectGarbage` the object list holds exactly the heap objects
reachable from the roots (defined non-`Null` globals, pinned values, frame
functions, live stack slots) along the mark-traversal edges; every object not
so reachable has been unlinked and freed.  Hypotheses: the MARKED flags are
clear (spec invariant 3), the flag array parallels the store, every root is
on the object list and the list is closed under the mark edges (spec
invariant 1). -/
theorem collectGarbage_object_list (σ : Config) (s : VMState)
    (hlen : s.marks.length = s.store.length)
    (hclear : ∀ b ∈ s.marks, b = false)
    (hroots : ∀ r ∈ rootIds s, r ∈ s.first)
    (hclosed : ∀ o ∈ s.first, ∀ c ∈ succsAt s.store o, c ∈ s.first) :
    ∀ x, x ∈ (collectGarbage σ s).first ↔ Reachable s x := by
  intro x
  have hfirst : (collectGarbage σ s).first =
      (sweepList σ s.store s.first (gcMarks s) s.totalAllocated).1 := rfl
  have hM0 : ∀ i, mAt s.marks i = false := by
    intro i
    rcases Nat.lt_or_ge i s.marks.length with h | h
    · unfold mAt
      rw [List.getD_eq_getElem _ _ h]
      exact hclear _ (List.getElem_mem _)
    · unfold mAt
      rw [List.getD_eq_default _ _ h]
  have hcard : unmarkedCard s.store.length s.marks < s.store.length + 1 :=
    Nat.lt_succ_of_le (unmarkedCard_le _ _)
  have hspec := (mark_spec s.store (s.store.length + 1)).2 (rootIds s) s.marks hlen hcard x
  rw [hfirst, sweepList_mem, gcMarks_eq, hspec]
  constructor
  · rintro ⟨hmem, h | ⟨r, hr, hRA⟩⟩
    · rw [hM0 x] at h
      cases h
    · exact ⟨r, hr, RA_mono (fun i hi => hi.elim) hRA⟩
  · intro hreach
    refine ⟨reach_mem_first s hroots hclosed x hreach, ?_⟩
    rcases hreach with ⟨r, hr, hRA⟩
    refine Or.inr ⟨r, hr, RA_mono (fun i hi => ?_) hRA⟩
    rw [hM0 i] at hi
    cases hi

/-- A heap of two strings of which only the first is referenced from the
value stack. -/
def c1VM : VMState :=
  mkVM [ObjData.string [0], ObjData.string [0]] [0, 1] [Value.obj 0] []

/-- Witness for C1 at a concrete input: object 0 is rooted and survives. -/
theorem collectGarbage_object_list_witness :
    0 ∈ (collectGarbage cfg1 c1VM).first ↔ Reachable c1VM 0 :=
  collectGarbage_object_list cfg1 c1VM (by decide) (by decide) (by decide) (by decide) 0
